import Mathlib

/-!
Verification of the zCall calibration driver
(`src/scripts/calibrationFromEGT.py`).

The script is a pipeline orchestrator: for each Z score in a contiguous
range it creates a temporary workspace, runs three external commands in a
fixed order through `os.system`, and deletes the workspace exactly when all
three commands exited with status 0.

The embedding models Python strings as lists of characters, the subprocess
layer (`os.system`, `tempfile.mkdtemp`) and the filesystem checks of
`validate_args` as explicit environments, and Python exceptions as an
explicit error type.
-/

/-- Python strings are modelled as lists of characters. -/
abbrev Str := List Char

/-- Embed a Lean string literal as a character list. -/
def lit (x : String) : Str := x.toList

/-- Model of Python `re.split(sep, s)` for a single-character literal
separator (the script uses `re.split('/', ...)` and `re.split('\.', ...)`).
The result is always non-empty; splitting the empty string yields `[""]`. -/
def splitOnChar (sep : Char) : Str → List Str
  | [] => [[]]
  | c :: cs =>
    let r := splitOnChar sep cs
    if c = sep then [] :: r else (c :: r.headD []) :: r.tail

/-- Model of Python `sep.join(parts)`. -/
def joinWith (sep : Str) : List Str → Str
  | [] => []
  | [x] => x
  | x :: y :: ys => x ++ sep ++ joinWith sep (y :: ys)

/-- Little-endian decimal digits of `n`, driven by explicit fuel so that the
definition is structurally recursive (fuel `n` always suffices). -/
def natToDigitsAux : Nat → Nat → List Nat
  | 0, _ => []
  | fuel + 1, n => if n = 0 then [] else (n % 10) :: natToDigitsAux fuel (n / 10)

/-- Little-endian decimal digits of `n` (empty for `0`). -/
def natDigitsLE (n : Nat) : List Nat := natToDigitsAux n n

/-- Model of Python `str(n)` for a natural number. -/
def pyStrNat (n : Nat) : Str :=
  if n = 0 then ['0'] else (natDigitsLE n).reverse.map Nat.digitChar

/-- Model of Python `str(z)` for an integer. -/
def pyStrInt (z : Int) : Str :=
  if z < 0 then '-' :: pyStrNat z.natAbs else pyStrNat z.natAbs

/-- Model of Python `s.zfill(width)`: left-pad with `'0'` to `width`,
keeping a leading sign character in front of the padding. -/
def zfill (width : Nat) (s : Str) : Str :=
  match s with
  | [] => List.replicate width '0'
  | c :: rest =>
    if c = '-' ∨ c = '+' then
      c :: (List.replicate (width - (rest.length + 1)) '0' ++ rest)
    else
      List.replicate (width - (rest.length + 1)) '0' ++ (c :: rest)

/-- `re.split('/', egtPath).pop()`: the last path segment of `egtPath`. -/
def pyBasename (p : Str) : Str := (splitOnChar '/' p).getLastD []

/-- The stem computed by `calibration.thresholdFileName`: split the base
name on `'.'`, drop the last piece (`items.pop()`), and rejoin with `'.'`. -/
def pyStem (p : Str) : Str :=
  joinWith ['.'] ((splitOnChar '.' (pyBasename p)).dropLast)

/-- `calibration.thresholdFileName(egtPath, zScore)`:
`'thresholds_' + name + '_z' + str(zScore).zfill(2) + '.txt'`. -/
def thresholdFileName (egtPath : Str) (zScore : Int) : Str :=
  lit "thresholds_" ++ pyStem egtPath ++ lit "_z" ++
    zfill 2 (pyStrInt zScore) ++ lit ".txt"

example : thresholdFileName (lit "/a/b/sample.egt") 7 = lit "thresholds_sample_z07.txt" := by decide
example : thresholdFileName (lit "/a/b/sample.egt") 12 = lit "thresholds_sample_z12.txt" := by decide
example : thresholdFileName (lit "/x/sample.v2.egt") 3 = lit "thresholds_sample.v2_z03.txt" := by decide
example : thresholdFileName (lit "/x/noext") 7 = lit "thresholds__z07.txt" := by decide

theorem splitOnChar_ne_nil (sep : Char) (s : Str) : splitOnChar sep s ≠ [] := by
  cases s with
  | nil => simp [splitOnChar]
  | cons c cs =>
    simp only [splitOnChar]
    split <;> simp

theorem splitOnChar_of_not_mem (sep : Char) (s : Str) (h : sep ∉ s) :
    splitOnChar sep s = [s] := by
  induction s with
  | nil => rfl
  | cons c cs ih =>
    simp only [List.mem_cons, not_or] at h
    simp only [splitOnChar, ih h.2]
    rw [if_neg (fun hc => h.1 hc.symm)]
    rfl

theorem splitOnChar_append (sep : Char) (xs ys : Str) :
    splitOnChar sep (xs ++ sep :: ys) = splitOnChar sep xs ++ splitOnChar sep ys := by
  induction xs with
  | nil => simp [splitOnChar]
  | cons c cs ih =>
    by_cases hc : c = sep
    · subst hc
      simp [splitOnChar, ih]
    · obtain ⟨p, ps, hp⟩ := List.exists_cons_of_ne_nil (splitOnChar_ne_nil sep cs)
      simp [splitOnChar, ih, hp, hc]

theorem joinWith_cons (sep : Str) (x : Char) (p : Str) (ps : List Str) :
    joinWith sep ((x :: p) :: ps) = x :: joinWith sep (p :: ps) := by
  cases ps <;> simp [joinWith]

theorem joinWith_splitOnChar (sep : Char) (s : Str) :
    joinWith [sep] (splitOnChar sep s) = s := by
  induction s with
  | nil => rfl
  | cons c cs ih =>
    obtain ⟨p, ps, hp⟩ := List.exists_cons_of_ne_nil (splitOnChar_ne_nil sep cs)
    by_cases hc : c = sep
    · subst hc
      have h1 : splitOnChar c (c :: cs) = [] :: p :: ps := by
        simp [splitOnChar, hp]
      rw [h1]
      have h2 : joinWith [c] ([] :: p :: ps) = c :: joinWith [c] (p :: ps) := by
        simp [joinWith]
      rw [h2, ← hp, ih]
    · have h1 : splitOnChar sep (c :: cs) = (c :: p) :: ps := by
        simp [splitOnChar, hp, hc]
      rw [h1, joinWith_cons, ← hp, ih]

/-- If the base name decomposes as `stem ++ "." ++ ext` with a dot-free
`ext`, then the stem computed by `thresholdFileName` is exactly `stem`. -/
theorem pyStem_of_ext (p stem ext : Str) (h : pyBasename p = stem ++ '.' :: ext)
    (hext : '.' ∉ ext) : pyStem p = stem := by
  unfold pyStem
  rw [h, splitOnChar_append, splitOnChar_of_not_mem _ _ hext]
  rw [List.dropLast_concat]
  exact joinWith_splitOnChar '.' stem

/-- If the base name contains no dot, the computed stem is empty. -/
theorem pyStem_of_no_dot (p : Str) (h : '.' ∉ pyBasename p) : pyStem p = [] := by
  unfold pyStem
  rw [splitOnChar_of_not_mem _ _ h]
  rfl

/-- Numeric value of a decimal digit character. -/
def digitVal (c : Char) : Nat := c.toNat - 48

/-- Read back a big-endian decimal digit string. -/
def parseDec (s : Str) : Nat := Nat.ofDigits 10 (s.reverse.map digitVal)

/-- Is `c` one of `'0'`..`'9'`? -/
def isDig (c : Char) : Bool := decide (48 ≤ c.toNat ∧ c.toNat ≤ 57)

theorem natToDigitsAux_lt (fuel : Nat) : ∀ n d, d ∈ natToDigitsAux fuel n → d < 10 := by
  induction fuel with
  | zero => intro n d hd; simp [natToDigitsAux] at hd
  | succ f ih =>
    intro n d hd
    by_cases h0 : n = 0
    · subst h0; simp [natToDigitsAux] at hd
    · simp only [natToDigitsAux, if_neg h0, List.mem_cons] at hd
      rcases hd with h | h
      · subst h; exact Nat.mod_lt _ (by norm_num)
      · exact ih _ _ h

theorem ofDigits_natToDigitsAux (fuel : Nat) :
    ∀ n, n ≤ fuel → Nat.ofDigits 10 (natToDigitsAux fuel n) = n := by
  induction fuel with
  | zero => intro n hn; interval_cases n; rfl
  | succ f ih =>
    intro n hn
    by_cases h0 : n = 0
    · subst h0; simp [natToDigitsAux, Nat.ofDigits]
    · have hdiv : n / 10 ≤ f := by
        have : n / 10 < n := Nat.div_lt_self (Nat.pos_of_ne_zero h0) (by norm_num)
        omega
      simp only [natToDigitsAux, if_neg h0, Nat.ofDigits_cons, ih _ hdiv]
      omega

theorem digitVal_digitChar (d : Nat) (hd : d < 10) :
    digitVal (Nat.digitChar d) = d := by
  interval_cases d <;> decide

theorem isDig_digitChar (d : Nat) (hd : d < 10) :
    isDig (Nat.digitChar d) = true := by
  interval_cases d <;> decide

theorem parseDec_pyStrNat (n : Nat) : parseDec (pyStrNat n) = n := by
  by_cases h0 : n = 0
  · subst h0; decide
  · unfold pyStrNat parseDec
    rw [if_neg h0]
    have h1 : ((natDigitsLE n).reverse.map Nat.digitChar).reverse.map digitVal
        = (natDigitsLE n).map (fun d => digitVal (Nat.digitChar d)) := by
      rw [← List.map_reverse, List.reverse_reverse, List.map_map]
      rfl
    rw [h1]
    have h3 : ∀ d ∈ natDigitsLE n, digitVal (Nat.digitChar d) = id d :=
      fun d hd => digitVal_digitChar d (natToDigitsAux_lt n n d hd)
    have h2 : (natDigitsLE n).map (fun d => digitVal (Nat.digitChar d))
        = natDigitsLE n := by
      calc (natDigitsLE n).map (fun d => digitVal (Nat.digitChar d))
          = (natDigitsLE n).map id := List.map_congr_left h3
        _ = natDigitsLE n := List.map_id _
    rw [h2]
    exact ofDigits_natToDigitsAux n n le_rfl

theorem ofDigits_replicate_zero (k : Nat) :
    Nat.ofDigits 10 (List.replicate k 0) = 0 := by
  induction k with
  | zero => rfl
  | succ m ih => simp [List.replicate_succ, Nat.ofDigits_cons, ih]

theorem parseDec_replicate_zero_append (k : Nat) (s : Str) :
    parseDec (List.replicate k '0' ++ s) = parseDec s := by
  unfold parseDec
  rw [List.reverse_append, List.reverse_replicate, List.map_append, List.map_replicate]
  have h0 : digitVal '0' = 0 := rfl
  rw [h0, Nat.ofDigits_append, ofDigits_replicate_zero]
  simp

theorem pyStrNat_digits (n : Nat) : ∀ c ∈ pyStrNat n, isDig c = true := by
  intro c hc
  unfold pyStrNat at hc
  by_cases h0 : n = 0
  · subst h0
    simp at hc
    subst hc; decide
  · rw [if_neg h0] at hc
    simp only [List.mem_map, List.mem_reverse] at hc
    obtain ⟨d, hd, rfl⟩ := hc
    exact isDig_digitChar d (natToDigitsAux_lt _ _ _ hd)

theorem pyStrInt_pos (z : Int) (hz : 1 ≤ z) : pyStrInt z = pyStrNat z.natAbs := by
  unfold pyStrInt
  rw [if_neg (by omega)]

theorem zfill_of_digits (w : Nat) (s : Str) (h : ∀ c ∈ s, isDig c = true) :
    zfill w s = List.replicate (w - s.length) '0' ++ s := by
  cases s with
  | nil => simp [zfill]
  | cons c rest =>
    have hc := h c (by simp)
    have hns : ¬ (c = '-' ∨ c = '+') := by
      rintro (rfl | rfl) <;> exact absurd hc (by decide)
    simp [zfill, hns, List.length_cons]

theorem zz_digits (z : Int) (hz : 1 ≤ z) :
    ∀ c ∈ zfill 2 (pyStrInt z), isDig c = true := by
  rw [pyStrInt_pos z hz, zfill_of_digits _ _ (pyStrNat_digits _)]
  intro c hc
  rcases List.mem_append.1 hc with h | h
  · rw [List.eq_of_mem_replicate h]; decide
  · exact pyStrNat_digits _ c h

theorem parseDec_zz (z : Int) (hz : 1 ≤ z) :
    parseDec (zfill 2 (pyStrInt z)) = z.natAbs := by
  rw [pyStrInt_pos z hz, zfill_of_digits _ _ (pyStrNat_digits _),
      parseDec_replicate_zero_append, parseDec_pyStrNat]

theorem zz_inj (z1 z2 : Int) (h1 : 1 ≤ z1) (h2 : 1 ≤ z2)
    (h : zfill 2 (pyStrInt z1) = zfill 2 (pyStrInt z2)) : z1 = z2 := by
  have hp := congrArg parseDec h
  rw [parseDec_zz z1 h1, parseDec_zz z2 h2] at hp
  omega

/-- Lists of digit characters followed by a `'z'` separator can be matched
up uniquely: the non-digit `'z'` marks where the digits stop. -/
theorem digits_sep_inj (d1 : Str) :
    (∀ c ∈ d1, isDig c = true) → ∀ d2 y1 y2 : Str, (∀ c ∈ d2, isDig c = true) →
    d1 ++ 'z' :: y1 = d2 ++ 'z' :: y2 → d1 = d2 ∧ y1 = y2 := by
  induction d1 with
  | nil =>
    intro _ d2 y1 y2 hd2 h
    cases d2 with
    | nil => simpa using h
    | cons b bs =>
      exfalso
      simp only [List.nil_append, List.cons_append, List.cons.injEq] at h
      have hb := hd2 b (by simp)
      rw [← h.1] at hb
      exact absurd hb (by decide)
  | cons a as ih =>
    intro hd1 d2 y1 y2 hd2 h
    cases d2 with
    | nil =>
      exfalso
      simp only [List.cons_append, List.nil_append, List.cons.injEq] at h
      have ha := hd1 a (by simp)
      rw [h.1] at ha
      exact absurd ha (by decide)
    | cons b bs =>
      simp only [List.cons_append, List.cons.injEq] at h
      obtain ⟨hab, hrest⟩ := h
      obtain ⟨hh1, hh2⟩ := ih (fun c hc => hd1 c (by simp [hc])) bs y1 y2
        (fun c hc => hd2 c (by simp [hc])) hrest
      exact ⟨by rw [hab, hh1], hh2⟩

/-- Python exceptions raised by the script. -/
inductive PyErr where
  | osError (msg : Str)
  | valueError (msg : Str)
deriving DecidableEq

/-- Environment for the process layer: `sys.path[0]` (the script
directory), `os.system` (command string to exit status), and
`tempfile.mkdtemp` indexed by call number (`none` models a raised
`OSError`). -/
structure Env where
  scriptDir : Str
  exec : Str → Int
  mkdtemp : Nat → Option Str

/-- The `calibration` object; its constructor reads `rscript` from the
config file (config loading itself is out of scope of the claims). -/
structure calibration where
  rScript : Str

/-- The three shell command strings built by `calibration.run`, in
execution order: mean/SD extraction, beta fitting, thresholding. -/
def extractionCmd (scriptDir egtPath meanSd : Str) : Str :=
  scriptDir ++ lit "/findMeanSD.py -E " ++ egtPath ++ lit " > " ++ meanSd

def fittingCmd (rScript scriptDir meanSd betas tempDir : Str) : Str :=
  lit "bash -c \"" ++ rScript ++ lit " " ++ scriptDir ++ lit "/findBetas.r " ++
    meanSd ++ lit " " ++ betas ++ lit " 1 \" 2> " ++ tempDir ++ lit "/r_error.txt"

def thresholdingCmd (scriptDir betas egtPath : Str) (zScore : Int) (outDir thresholds : Str) : Str :=
  scriptDir ++ lit "/findThresholds.py -B " ++ betas ++ lit " -E " ++ egtPath ++
    lit " -Z " ++ pyStrInt zScore ++ lit " > " ++ outDir ++ lit "/" ++ thresholds

/-- `cmdList` of `calibration.run`. -/
def stageCmds (scriptDir rScript tempDir egtPath : Str) (zScore : Int) (outDir : Str) : List Str :=
  [extractionCmd scriptDir egtPath (tempDir ++ lit "/mean_sd.txt"),
   fittingCmd rScript scriptDir (tempDir ++ lit "/mean_sd.txt")
     (tempDir ++ lit "/betas.txt") tempDir,
   thresholdingCmd scriptDir (tempDir ++ lit "/betas.txt") egtPath zScore
     outDir (thresholdFileName egtPath zScore)]

/-- The `for cmd in cmdList` loop of `calibration.run`: echo the command
(verbose), run it, warn and clear `commandsOK` on non-zero status.  Returns
the final `commandsOK` flag, the exit statuses in order, and the stderr
lines written. -/
def execLoop (ex : Str → Int) (verbose : Bool) : List Str → Bool → Bool × List Int × List Str
  | [], ok => (ok, [], [])
  | cmd :: rest, ok =>
    let status := ex cmd
    let ok2 := if status ≠ 0 then false else ok
    let entry := (if verbose then [cmd ++ lit "\n"] else []) ++
      (if status ≠ 0 ∧ verbose then [lit "WARNING: Non-zero exit status.\n"] else [])
    let r := execLoop ex verbose rest ok2
    (r.1, status :: r.2.1, entry ++ r.2.2)

/-- Observable outcome of one `calibration.run` body (after `mkdtemp`
succeeded): the commands issued, their statuses, the aggregate
`commandsOK` flag, whether (and with what status) `rm -Rf tempDir` was
issued (`none` means the workspace was retained), and the stderr lines. -/
structure RunResult where
  zScore : Int
  verbose : Bool
  tempDir : Str
  cmds : List Str
  statuses : List Int
  commandsOK : Bool
  cleanupStatus : Option Int
  log : List Str
deriving DecidableEq

/-- Body of `calibration.run` (source lines 50-77) once `mkdtemp` has
returned `tempDir`. -/
def calibration.runBody (cal : calibration) (env : Env) (tempDir egtPath : Str)
    (zScore : Int) (outDir : Str) (verbose : Bool) : RunResult :=
  let cmdList := stageCmds env.scriptDir cal.rScript tempDir egtPath zScore outDir
  let e := execLoop env.exec verbose cmdList true
  { zScore := zScore
    verbose := verbose
    tempDir := tempDir
    cmds := cmdList
    statuses := e.2.1
    commandsOK := e.1
    cleanupStatus := if e.1 then some (env.exec (lit "rm -Rf " ++ tempDir)) else none
    log :=
      (if verbose then
        [lit "Calibrating zCall: zscore = " ++ pyStrInt zScore ++ lit "\n" ++
          lit "Writing temporary files to " ++ tempDir ++ lit "\n"]
       else []) ++
      e.2.2 ++
      (if e.1 then
        (if verbose then [lit "Cleaning up temporary directory.\n"] else [])
       else
        (if verbose then [lit "Possible error, retaining temporary directory.\n"] else [])) ++
      (if verbose then [lit "Finished.\n"] else []) }

/-- `calibration.run`: `tempfile.mkdtemp` may raise (modelled by
`env.mkdtemp callIdx = none`); otherwise the body runs to completion. -/
def calibration.run (cal : calibration) (env : Env) (callIdx : Nat) (egtPath : Str)
    (zScore : Int) (outDir : Str) (verbose : Bool) : Except PyErr RunResult :=
  match env.mkdtemp callIdx with
  | none => .error (.osError (lit "mkdtemp failed"))
  | some tempDir => .ok (cal.runBody env tempDir egtPath zScore outDir verbose)

/-- The `for i in range(ztotal)` loop of `main`: run each Z score in turn,
incrementing `z` by one each iteration; an uncaught exception aborts the
loop.  Returns the completed runs in order and the propagated exception,
if any. -/
def runLoop (cal : calibration) (env : Env) (egt outDir : Str) (verbose : Bool) :
    Nat → Int → Nat → List RunResult × Option PyErr
  | 0, _, _ => ([], none)
  | n + 1, z, idx =>
    match cal.run env idx egt z outDir verbose with
    | .error e => ([], some e)
    | .ok r =>
      let rest := runLoop cal env egt outDir verbose n (z + 1) (idx + 1)
      (r :: rest.1, rest.2)

theorem execLoop_cons (ex : Str → Int) (v : Bool) (cmd : Str) (rest : List Str) (b : Bool) :
    execLoop ex v (cmd :: rest) b =
      ((execLoop ex v rest (if ex cmd ≠ 0 then false else b)).1,
       ex cmd :: (execLoop ex v rest (if ex cmd ≠ 0 then false else b)).2.1,
       ((if v then [cmd ++ lit "\n"] else []) ++
        (if ex cmd ≠ 0 ∧ v then [lit "WARNING: Non-zero exit status.\n"] else [])) ++
       (execLoop ex v rest (if ex cmd ≠ 0 then false else b)).2.2) := rfl

theorem execLoop_statuses (ex : Str → Int) (v : Bool) (cmds : List Str) :
    ∀ b, (execLoop ex v cmds b).2.1 = cmds.map ex := by
  induction cmds with
  | nil => intro b; rfl
  | cons c cs ih => intro b; simp [execLoop_cons, ih]

theorem execLoop_ok (ex : Str → Int) (v : Bool) (cmds : List Str) :
    ∀ b, (execLoop ex v cmds b).1 = (b && cmds.all fun c => ex c == 0) := by
  induction cmds with
  | nil => intro b; simp [execLoop]
  | cons c cs ih =>
    intro b
    simp only [execLoop_cons, ih, List.all_cons]
    by_cases h : ex c = 0
    · simp [h]
    · simp [h]

theorem execLoop_warns (ex : Str → Int) (cmds : List Str) :
    ∀ b c, c ∈ cmds → ex c ≠ 0 →
    lit "WARNING: Non-zero exit status.\n" ∈ (execLoop ex true cmds b).2.2 := by
  induction cmds with
  | nil => intro b c hc; simp at hc
  | cons d ds ih =>
    intro b c hc hnz
    simp only [List.mem_cons] at hc
    rcases hc with rfl | hc
    · simp [execLoop_cons, hnz]
    · rw [execLoop_cons]
      exact List.mem_append.mpr (Or.inr (ih _ c hc hnz))

theorem runLoop_cons (cal : calibration) (env : Env) (egt out : Str) (v : Bool)
    (n : Nat) (z : Int) (idx : Nat) (td : Str) (htd : env.mkdtemp idx = some td) :
    runLoop cal env egt out v (n + 1) z idx =
      (cal.runBody env td egt z out v :: (runLoop cal env egt out v n (z + 1) (idx + 1)).1,
       (runLoop cal env egt out v n (z + 1) (idx + 1)).2) := by
  simp only [runLoop, calibration.run, htd]

/-- When `mkdtemp` always succeeds, the run loop performs every iteration
and propagates no exception, whatever the stage exit statuses are. -/
theorem runLoop_total (cal : calibration) (env : Env) (egt out : Str) (v : Bool)
    (h : ∀ i, (env.mkdtemp i).isSome) :
    ∀ (n : Nat) (z : Int) (idx : Nat),
      (runLoop cal env egt out v n z idx).1.length = n
      ∧ (runLoop cal env egt out v n z idx).2 = none := by
  intro n
  induction n with
  | zero => intro z idx; exact ⟨rfl, rfl⟩
  | succ m ih =>
    intro z idx
    obtain ⟨td, htd⟩ := Option.isSome_iff_exists.mp (h idx)
    rw [runLoop_cons cal env egt out v m z idx td htd]
    simp only [List.length_cons]
    exact ⟨by rw [(ih (z + 1) (idx + 1)).1], (ih (z + 1) (idx + 1)).2⟩

/-- When `mkdtemp` always succeeds, the run loop visits exactly the Z
scores `z, z+1, ..., z+n-1` in order, with the verbose flag unchanged. -/
theorem runLoop_zscores (cal : calibration) (env : Env) (egt out : Str) (v : Bool)
    (h : ∀ i, (env.mkdtemp i).isSome) :
    ∀ (n : Nat) (z : Int) (idx : Nat),
      ((runLoop cal env egt out v n z idx).1.map RunResult.zScore
        = (List.range n).map (fun (i : Nat) => z + (i : Int)))
      ∧ (∀ r ∈ (runLoop cal env egt out v n z idx).1, r.verbose = v) := by
  intro n
  induction n with
  | zero => intro z idx; exact ⟨rfl, by intro r hr; simp [runLoop] at hr⟩
  | succ m ih =>
    intro z idx
    obtain ⟨td, htd⟩ := Option.isSome_iff_exists.mp (h idx)
    rw [runLoop_cons cal env egt out v m z idx td htd]
    constructor
    · rw [List.map_cons, (ih (z + 1) (idx + 1)).1,
        List.range_succ_eq_map, List.map_cons, List.map_map]
      congr 1
      · simp [calibration.runBody]
      · refine List.map_congr_left (fun i _ => ?_)
        simp only [Function.comp_apply]
        push_cast
        ring
    · intro r hr
      simp only [List.mem_cons] at hr
      rcases hr with rfl | hr
      · simp [calibration.runBody]
      · exact (ih (z + 1) (idx + 1)).2 r hr

/-- Filesystem oracle for `validate_args` and `os.path.abspath`. -/
structure FS where
  readable : Str → Bool
  pathExists : Str → Bool
  isdir : Str → Bool
  writable : Str → Bool
  abspath : Str → Str

/-- Parsed command-line arguments. -/
structure Args where
  egt : Str
  out : Str
  zstart : Int
  ztotal : Int
  verbose : Bool
deriving DecidableEq

/-- `validate_args` (source lines 91-119), validation part: each failed
check raises (`OSError` or `ValueError`) with the script's message. -/
def validate_args (fs : FS) (a : Args) : Except PyErr Args :=
  if ¬ fs.readable a.egt then
    .error (.osError (lit "Cannot read .egt input path \"" ++ a.egt ++ lit "\""))
  else if ¬ fs.pathExists a.out then
    .error (.osError (lit "Output path \"" ++ a.out ++ lit "\" does not exist."))
  else if ¬ fs.isdir a.out then
    .error (.osError (lit "Output path \"" ++ a.out ++ lit "\" is not a directory."))
  else if ¬ fs.writable a.out then
    .error (.osError (lit "Cannot write to output directory \"" ++ a.out ++ lit "\""))
  else if a.ztotal < 1 ∨ a.zstart < 1 then
    .error (.valueError (lit "Invalid zstart or ztotal option."))
  else
    .ok a

/-- `main`: validate the arguments (an exception aborts before any run),
then drive the run loop over `range(ztotal)` starting at `zstart`. -/
def mainRun (cal : calibration) (fs : FS) (env : Env) (a : Args) :
    List RunResult × Option PyErr :=
  match validate_args fs a with
  | .error e => ([], some e)
  | .ok args =>
    runLoop cal env (fs.abspath args.egt) (fs.abspath args.out) args.verbose
      args.ztotal.toNat args.zstart 0

/-! Concrete fixtures used by witnesses and counterexamples. -/

def cexCal : calibration := ⟨lit "/usr/bin/Rscript"⟩

def envAllOk : Env :=
  ⟨lit "/opt/zcall", fun _ => 0, fun i => some (lit "/tmp/zcall_" ++ pyStrNat i)⟩

def envAllFail : Env :=
  ⟨lit "/opt/zcall", fun _ => 1, fun i => some (lit "/tmp/zcall_" ++ pyStrNat i)⟩

def envRmFails : Env :=
  ⟨lit "/opt/zcall", fun c => if c = lit "rm -Rf /tmp/w" then 1 else 0,
   fun _ => some (lit "/tmp/w")⟩

def envMkdtempFailsAt1 : Env :=
  ⟨lit "/opt/zcall", fun _ => 0,
   fun i => if i = 1 then none else some (lit "/tmp/zcall_" ++ pyStrNat i)⟩

def fsAllGood : FS := ⟨fun _ => true, fun _ => true, fun _ => true, fun _ => true, fun p => p⟩

def argsZTotalZero : Args := ⟨lit "/in.egt", lit "/out", 7, 0, false⟩

/-- C3: `thresholdFileName` takes the input path's last segment, strips
exactly the final extension (everything after the last dot, so a
multi-dot name keeps its earlier dots in the stem), and returns
`thresholds_<stem>_z<ZZ>.txt` with the Z score zero-padded to two digits;
in particular the spec's three concrete examples hold. -/
theorem thresholdFileName_strips_final_extension :
    (∀ (p stem ext : Str) (z : Int), pyBasename p = stem ++ '.' :: ext → '.' ∉ ext →
      thresholdFileName p z =
        lit "thresholds_" ++ stem ++ lit "_z" ++ zfill 2 (pyStrInt z) ++ lit ".txt")
    ∧ thresholdFileName (lit "/a/b/sample.egt") 7 = lit "thresholds_sample_z07.txt"
    ∧ thresholdFileName (lit "/a/b/sample.egt") 12 = lit "thresholds_sample_z12.txt"
    ∧ thresholdFileName (lit "/x/sample.v2.egt") 3 = lit "thresholds_sample.v2_z03.txt" := by
  refine ⟨?_, by decide, by decide, by decide⟩
  intro p stem ext z h hext
  unfold thresholdFileName
  rw [pyStem_of_ext p stem ext h hext]

/-- Witness for C3 at the concrete input `/a/b/sample.egt` with Z = 7. -/
theorem thresholdFileName_strips_final_extension_witness :
    thresholdFileName (lit "/a/b/sample.egt") 7 =
      lit "thresholds_" ++ lit "sample" ++ lit "_z" ++ zfill 2 (pyStrInt 7) ++ lit ".txt" :=
  thresholdFileName_strips_final_extension.1 (lit "/a/b/sample.egt") (lit "sample")
    (lit "egt") 7 (by decide) (by decide)

/-- C9: if the base name contains no dot, the stem is empty, giving
`thresholds__z<ZZ>.txt`, so any two extension-less inputs with the same Z
score collide on the output name. -/
theorem thresholdFileName_empty_stem_when_no_dot :
    (∀ (p : Str) (z : Int), '.' ∉ pyBasename p →
      thresholdFileName p z = lit "thresholds__z" ++ zfill 2 (pyStrInt z) ++ lit ".txt")
    ∧ (∀ (p1 p2 : Str) (z : Int), '.' ∉ pyBasename p1 → '.' ∉ pyBasename p2 →
      thresholdFileName p1 z = thresholdFileName p2 z) := by
  have key : ∀ (p : Str) (z : Int), '.' ∉ pyBasename p →
      thresholdFileName p z = lit "thresholds__z" ++ zfill 2 (pyStrInt z) ++ lit ".txt" := by
    intro p z h
    unfold thresholdFileName
    rw [pyStem_of_no_dot p h]
    have hAB : lit "thresholds_" ++ ([] : Str) ++ lit "_z" = lit "thresholds__z" := by decide
    rw [hAB]
  refine ⟨key, fun p1 p2 z h1 h2 => ?_⟩
  rw [key p1 z h1, key p2 z h2]

/-- Witness for C9: two distinct extension-less inputs with Z = 7 produce
the same output file name. -/
theorem thresholdFileName_empty_stem_when_no_dot_witness :
    thresholdFileName (lit "/x/alpha") 7 = thresholdFileName (lit "/y/beta") 7 :=
  thresholdFileName_empty_stem_when_no_dot.2 (lit "/x/alpha") (lit "/y/beta") 7
    (by decide) (by decide)

/-- C4: naming depends only on (base name, Z score), and is injective on
inputs whose stems differ or whose positive Z scores differ. -/
theorem thresholdFileName_pure_and_injective :
    (∀ (p1 p2 : Str) (z : Int), pyBasename p1 = pyBasename p2 →
      thresholdFileName p1 z = thresholdFileName p2 z)
    ∧ (∀ (p1 p2 : Str) (z1 z2 : Int), 1 ≤ z1 → 1 ≤ z2 →
      (pyStem p1 ≠ pyStem p2 ∨ z1 ≠ z2) →
      thresholdFileName p1 z1 ≠ thresholdFileName p2 z2) := by
  constructor
  · intro p1 p2 z h
    unfold thresholdFileName pyStem
    rw [h]
  · intro p1 p2 z1 z2 h1 h2 hne heq
    unfold thresholdFileName at heq
    have h3 := List.append_cancel_right heq
    have h4 := congrArg List.reverse h3
    simp only [List.reverse_append] at h4
    have hB : (lit "_z").reverse = 'z' :: '_' :: ([] : Str) := by decide
    rw [hB] at h4
    simp only [List.cons_append, List.nil_append] at h4
    have hd1 : ∀ c ∈ (zfill 2 (pyStrInt z1)).reverse, isDig c = true :=
      fun c hc => zz_digits z1 h1 c (List.mem_reverse.mp hc)
    have hd2 : ∀ c ∈ (zfill 2 (pyStrInt z2)).reverse, isDig c = true :=
      fun c hc => zz_digits z2 h2 c (List.mem_reverse.mp hc)
    obtain ⟨hq, hy⟩ := digits_sep_inj _ hd1 _ _ _ hd2 h4
    have hqeq : zfill 2 (pyStrInt z1) = zfill 2 (pyStrInt z2) := by
      have hr := congrArg List.reverse hq
      simpa using hr
    have hz : z1 = z2 := zz_inj z1 z2 h1 h2 hqeq
    have hn : pyStem p1 = pyStem p2 := by
      injection hy with _ h5
      have h6 := List.append_cancel_right h5
      have hr := congrArg List.reverse h6
      simpa using hr
    rcases hne with hne | hne
    · exact hne hn
    · exact hne hz

/-- Witness for C4: same Z score, different stems, different file names. -/
theorem thresholdFileName_pure_and_injective_witness :
    decide (thresholdFileName (lit "/a/a.egt") 7 = thresholdFileName (lit "/a/b.egt") 7) = false :=
  decide_eq_false (thresholdFileName_pure_and_injective.2 (lit "/a/a.egt") (lit "/a/b.egt")
    7 7 (by norm_num) (by norm_num) (Or.inl (by decide)))

theorem runBody_cmds (cal : calibration) (env : Env) (td egt : Str) (z : Int)
    (out : Str) (v : Bool) :
    (cal.runBody env td egt z out v).cmds = stageCmds env.scriptDir cal.rScript td egt z out := rfl

theorem runBody_statuses (cal : calibration) (env : Env) (td egt : Str) (z : Int)
    (out : Str) (v : Bool) :
    (cal.runBody env td egt z out v).statuses =
      (stageCmds env.scriptDir cal.rScript td egt z out).map env.exec := by
  show (execLoop env.exec v (stageCmds env.scriptDir cal.rScript td egt z out) true).2.1 = _
  exact execLoop_statuses _ _ _ _

theorem runBody_commandsOK (cal : calibration) (env : Env) (td egt : Str) (z : Int)
    (out : Str) (v : Bool) :
    (cal.runBody env td egt z out v).commandsOK =
      (stageCmds env.scriptDir cal.rScript td egt z out).all (fun c => env.exec c == 0) := by
  show (execLoop env.exec v (stageCmds env.scriptDir cal.rScript td egt z out) true).1 = _
  rw [execLoop_ok]
  exact Bool.true_and _

theorem runBody_cleanupStatus (cal : calibration) (env : Env) (td egt : Str) (z : Int)
    (out : Str) (v : Bool) :
    (cal.runBody env td egt z out v).cleanupStatus =
      (if (cal.runBody env td egt z out v).commandsOK then
        some (env.exec (lit "rm -Rf " ++ td)) else none) := rfl

/-- C1: the workspace removal command is issued iff every stage command
exited with status 0; otherwise the workspace is retained.  Also records
that the statuses are exactly those of the three stage commands. -/
theorem workspace_deleted_iff_all_stages_succeed (cal : calibration) (env : Env)
    (td egt : Str) (z : Int) (out : Str) (v : Bool) :
    ((cal.runBody env td egt z out v).statuses =
        (stageCmds env.scriptDir cal.rScript td egt z out).map env.exec)
    ∧ (stageCmds env.scriptDir cal.rScript td egt z out).length = 3
    ∧ ((cal.runBody env td egt z out v).cleanupStatus ≠ none ↔
        ∀ st ∈ (cal.runBody env td egt z out v).statuses, st = 0) := by
  refine ⟨runBody_statuses cal env td egt z out v, rfl, ?_⟩
  rw [runBody_cleanupStatus, runBody_statuses, runBody_commandsOK]
  by_cases h : (stageCmds env.scriptDir cal.rScript td egt z out).all (fun c => env.exec c == 0)
  · rw [if_pos h]
    constructor
    · intro _ st hst
      simp only [List.mem_map] at hst
      obtain ⟨c, hc, rfl⟩ := hst
      have hall := List.all_eq_true.mp h c hc
      simpa using hall
    · intro _
      simp
  · rw [if_neg h]
    constructor
    · intro hcontra
      exact absurd rfl hcontra
    · intro hall
      exfalso
      apply h
      rw [List.all_eq_true]
      intro c hc
      have hc0 := hall (env.exec c) (List.mem_map_of_mem _ hc)
      simpa using hc0

/-- Witness for C1: with all stages failing, the workspace is retained. -/
theorem workspace_deleted_iff_all_stages_succeed_witness :
    (cexCal.runBody envAllFail (lit "/tmp/w") (lit "/in.egt") 7 (lit "/out") true).cleanupStatus = none := by
  have h := (workspace_deleted_iff_all_stages_succeed cexCal envAllFail (lit "/tmp/w")
    (lit "/in.egt") 7 (lit "/out") true).2.2
  by_contra hc
  exact absurd (h.mp hc) (by decide)

/-- C2: the three stage commands are issued in the fixed order
extraction, fitting, thresholding; every one of them runs (the status
list is the map of `os.system` over all three), and the run's overall
success flag is the conjunction of the three per-stage exit-0 tests. -/
theorem stages_run_in_order_no_short_circuit (cal : calibration) (env : Env)
    (td egt : Str) (z : Int) (out : Str) (v : Bool) :
    (cal.runBody env td egt z out v).cmds =
      [extractionCmd env.scriptDir egt (td ++ lit "/mean_sd.txt"),
       fittingCmd cal.rScript env.scriptDir (td ++ lit "/mean_sd.txt") (td ++ lit "/betas.txt") td,
       thresholdingCmd env.scriptDir (td ++ lit "/betas.txt") egt z out (thresholdFileName egt z)]
    ∧ (cal.runBody env td egt z out v).statuses =
        (cal.runBody env td egt z out v).cmds.map env.exec
    ∧ ((cal.runBody env td egt z out v).commandsOK = true ↔
        (env.exec (extractionCmd env.scriptDir egt (td ++ lit "/mean_sd.txt")) = 0
         ∧ env.exec (fittingCmd cal.rScript env.scriptDir (td ++ lit "/mean_sd.txt")
             (td ++ lit "/betas.txt") td) = 0
         ∧ env.exec (thresholdingCmd env.scriptDir (td ++ lit "/betas.txt") egt z out
             (thresholdFileName egt z)) = 0)) := by
  refine ⟨rfl, ?_, ?_⟩
  · rw [runBody_statuses, runBody_cmds]
  · rw [runBody_commandsOK]
    simp [stageCmds]

/-- Witness for C2: even with every stage failing, all three commands are
executed and their statuses recorded. -/
theorem stages_run_in_order_no_short_circuit_witness :
    (cexCal.runBody envAllFail (lit "/tmp/w") (lit "/in.egt") 7 (lit "/out") true).statuses =
      (cexCal.runBody envAllFail (lit "/tmp/w") (lit "/in.egt") 7 (lit "/out") true).cmds.map envAllFail.exec :=
  (stages_run_in_order_no_short_circuit cexCal envAllFail (lit "/tmp/w")
    (lit "/in.egt") 7 (lit "/out") true).2.1

/-- Helper: the stderr log of a run contains every line written by the
stage loop. -/
theorem runBody_log (cal : calibration) (env : Env) (td egt : Str) (z : Int)
    (out : Str) (v : Bool) :
    (cal.runBody env td egt z out v).log =
      (if v then [lit "Calibrating zCall: zscore = " ++ pyStrInt z ++ lit "\n" ++
          lit "Writing temporary files to " ++ td ++ lit "\n"] else []) ++
      (execLoop env.exec v (stageCmds env.scriptDir cal.rScript td egt z out) true).2.2 ++
      (if (execLoop env.exec v (stageCmds env.scriptDir cal.rScript td egt z out) true).1 then
        (if v then [lit "Cleaning up temporary directory.\n"] else [])
       else
        (if v then [lit "Possible error, retaining temporary directory.\n"] else [])) ++
      (if v then [lit "Finished.\n"] else []) := rfl

/-- C5: the run loop invokes the pipeline once per Z score in the
contiguous range `[zstart, zstart + ztotal - 1]`, in increasing order,
with the verbose flag passed through unchanged. -/
theorem runLoop_covers_contiguous_z_range (cal : calibration) (env : Env)
    (egt out : Str) (v : Bool) (zstart : Int) (ztotal : Nat)
    (_h1 : 1 ≤ zstart) (_h2 : 1 ≤ ztotal) (h : ∀ i, (env.mkdtemp i).isSome) :
    ((runLoop cal env egt out v ztotal zstart 0).1.map RunResult.zScore
      = (List.range ztotal).map (fun (i : Nat) => zstart + (i : Int)))
    ∧ (∀ r ∈ (runLoop cal env egt out v ztotal zstart 0).1, r.verbose = v)
    ∧ (runLoop cal env egt out v ztotal zstart 0).1.length = ztotal :=
  ⟨(runLoop_zscores cal env egt out v h ztotal zstart 0).1,
   (runLoop_zscores cal env egt out v h ztotal zstart 0).2,
   (runLoop_total cal env egt out v h ztotal zstart 0).1⟩

/-- Witness for C5: `zstart = 5, ztotal = 3` produces Z scores 5, 6, 7. -/
theorem runLoop_covers_contiguous_z_range_witness :
    (runLoop cexCal envAllOk (lit "/in.egt") (lit "/out") false 3 5 0).1.map RunResult.zScore
      = [5, 6, 7] := by
  have h := (runLoop_covers_contiguous_z_range cexCal envAllOk (lit "/in.egt") (lit "/out")
    false 5 3 (by norm_num) (by norm_num) (fun i => rfl)).1
  rw [h]
  decide

/-- C6: whenever the input is unreadable, the output path is missing, not
a directory, or not writable, or `ztotal < 1` or `zstart < 1`,
`validate_args` raises, `main` performs no run, and the process fails
before any stage command is invoked. -/
theorem validate_args_rejects_bad_inputs (cal : calibration) (fs : FS) (env : Env) (a : Args)
    (h : fs.readable a.egt = false ∨ fs.pathExists a.out = false ∨ fs.isdir a.out = false
      ∨ fs.writable a.out = false ∨ a.ztotal < 1 ∨ a.zstart < 1) :
    (∃ e, validate_args fs a = .error e)
    ∧ (mainRun cal fs env a).1 = []
    ∧ (mainRun cal fs env a).2.isSome = true := by
  have hv : ∃ e, validate_args fs a = .error e := by
    unfold validate_args
    by_cases hc1 : fs.readable a.egt
    · rw [if_neg (by simp [hc1])]
      by_cases hc2 : fs.pathExists a.out
      · rw [if_neg (by simp [hc2])]
        by_cases hc3 : fs.isdir a.out
        · rw [if_neg (by simp [hc3])]
          by_cases hc4 : fs.writable a.out
          · rw [if_neg (by simp [hc4])]
            have hc5 : a.ztotal < 1 ∨ a.zstart < 1 := by
              rcases h with h | h | h | h | h | h
              · exact absurd h (by simp [hc1])
              · exact absurd h (by simp [hc2])
              · exact absurd h (by simp [hc3])
              · exact absurd h (by simp [hc4])
              · exact Or.inl h
              · exact Or.inr h
            rw [if_pos hc5]
            exact ⟨_, rfl⟩
          · rw [if_pos hc4]
            exact ⟨_, rfl⟩
        · rw [if_pos hc3]
          exact ⟨_, rfl⟩
      · rw [if_pos hc2]
        exact ⟨_, rfl⟩
    · rw [if_pos hc1]
      exact ⟨_, rfl⟩
  obtain ⟨e, he⟩ := hv
  refine ⟨⟨e, he⟩, ?_, ?_⟩ <;> simp [mainRun, he]

/-- Witness for C6: `ztotal = 0` is rejected and nothing runs. -/
theorem validate_args_rejects_bad_inputs_witness :
    (mainRun cexCal fsAllGood envAllOk argsZTotalZero).1 = []
    ∧ (mainRun cexCal fsAllGood envAllOk argsZTotalZero).2.isSome = true := by
  have h := validate_args_rejects_bad_inputs cexCal fsAllGood envAllOk argsZTotalZero
    (Or.inr (Or.inr (Or.inr (Or.inr (Or.inl (by decide))))))
  exact ⟨h.2.1, h.2.2⟩

/-- C7: a non-zero stage exit never raises: the run returns a normal
result, each failing stage logs a warning in verbose mode, the cleanup
decision still executes, and the loop still performs every Z score. -/
theorem stage_failure_contained (cal : calibration) (env : Env) (idx : Nat)
    (egt : Str) (z : Int) (out td : Str) (n : Nat) (z0 : Int)
    (htd : env.mkdtemp idx = some td)
    (hall : ∀ i, (env.mkdtemp i).isSome) :
    cal.run env idx egt z out true = .ok (cal.runBody env td egt z out true)
    ∧ (∀ c ∈ (cal.runBody env td egt z out true).cmds, env.exec c ≠ 0 →
        lit "WARNING: Non-zero exit status.\n" ∈ (cal.runBody env td egt z out true).log)
    ∧ ((cal.runBody env td egt z out true).cleanupStatus =
        if (cal.runBody env td egt z out true).commandsOK then
          some (env.exec (lit "rm -Rf " ++ td)) else none)
    ∧ (runLoop cal env egt out true n z0 0).1.length = n
    ∧ (runLoop cal env egt out true n z0 0).2 = none := by
  refine ⟨?_, ?_, runBody_cleanupStatus cal env td egt z out true,
    (runLoop_total cal env egt out true hall n z0 0).1,
    (runLoop_total cal env egt out true hall n z0 0).2⟩
  · unfold calibration.run
    rw [htd]
  · intro c hc hnz
    rw [runBody_cmds] at hc
    have hw := execLoop_warns env.exec (stageCmds env.scriptDir cal.rScript td egt z out)
      true c hc hnz
    rw [runBody_log]
    exact List.mem_append.mpr (Or.inl (List.mem_append.mpr (Or.inl
      (List.mem_append.mpr (Or.inr hw)))))

/-- Witness for C7: with every stage failing, the run returns normally and
the loop still performs both of its Z scores. -/
theorem stage_failure_contained_witness :
    cexCal.run envAllFail 0 (lit "/in.egt") 7 (lit "/out") true
      = .ok (cexCal.runBody envAllFail (lit "/tmp/zcall_0") (lit "/in.egt") 7 (lit "/out") true)
    ∧ (runLoop cexCal envAllFail (lit "/in.egt") (lit "/out") true 2 7 0).1.length = 2
    ∧ (runLoop cexCal envAllFail (lit "/in.egt") (lit "/out") true 2 7 0).2 = none := by
  have h := stage_failure_contained cexCal envAllFail 0 (lit "/in.egt") 7 (lit "/out")
    (lit "/tmp/zcall_0") 2 7 (by decide) (fun i => rfl)
  exact ⟨h.1, h.2.2.2.1, h.2.2.2.2⟩

/-- C8 counterexample: all three stages succeed, the `rm -Rf` deletion
command exits 1, and the run still completes normally — the deletion
failure is recorded nowhere and raises nothing, contradicting the claim
that it is propagated as a fatal error. -/
theorem rm_failure_not_fatal_cex :
    cexCal.run envRmFails 0 (lit "/in.egt") 7 (lit "/out") false
      = .ok (cexCal.runBody envRmFails (lit "/tmp/w") (lit "/in.egt") 7 (lit "/out") false)
    ∧ (cexCal.runBody envRmFails (lit "/tmp/w") (lit "/in.egt") 7 (lit "/out") false).commandsOK = true
    ∧ (cexCal.runBody envRmFails (lit "/tmp/w") (lit "/in.egt") 7 (lit "/out") false).cleanupStatus = some 1 :=
  ⟨rfl, by decide, by decide⟩

/-- C8 amended: a failed deletion command at the end of a successful run
is silently ignored — the run returns normally whatever the `rm` exit
status is, and the single deletion attempt is not retried (its status is
merely recorded). -/
theorem rm_failure_silently_ignored (cal : calibration) (env : Env) (idx : Nat)
    (egt : Str) (z : Int) (out td : Str) (v : Bool)
    (htd : env.mkdtemp idx = some td) :
    cal.run env idx egt z out v = .ok (cal.runBody env td egt z out v)
    ∧ ((cal.runBody env td egt z out v).commandsOK = true →
        (cal.runBody env td egt z out v).cleanupStatus = some (env.exec (lit "rm -Rf " ++ td))) := by
  constructor
  · unfold calibration.run
    rw [htd]
  · intro hOK
    rw [runBody_cleanupStatus, if_pos hOK]

/-- Witness for C8's amended claim at a run whose deletion command fails. -/
theorem rm_failure_silently_ignored_witness :
    cexCal.run envRmFails 0 (lit "/in.egt") 7 (lit "/out") false
      = .ok (cexCal.runBody envRmFails (lit "/tmp/w") (lit "/in.egt") 7 (lit "/out") false)
    ∧ (cexCal.runBody envRmFails (lit "/tmp/w") (lit "/in.egt") 7 (lit "/out") false).cleanupStatus
        = some (envRmFails.exec (lit "rm -Rf " ++ lit "/tmp/w")) := by
  have h := rm_failure_silently_ignored cexCal envRmFails 0 (lit "/in.egt") 7 (lit "/out")
    (lit "/tmp/w") false rfl
  exact ⟨h.1, h.2 (by decide)⟩

/-- C10: if `mkdtemp` raises at the j-th run of the range, the exception
propagates uncaught: exactly the j earlier runs complete, the failing run
executes no stage, and no later Z score is attempted. -/
theorem mkdtemp_failure_aborts_loop (cal : calibration) (env : Env) (egt out : Str) (v : Bool) :
    ∀ (j n : Nat) (z : Int) (idx : Nat), j < n →
    env.mkdtemp (idx + j) = none →
    (∀ i, i < j → (env.mkdtemp (idx + i)).isSome) →
    (runLoop cal env egt out v n z idx).1.length = j
    ∧ (runLoop cal env egt out v n z idx).2 = some (.osError (lit "mkdtemp failed")) := by
  intro j
  induction j with
  | zero =>
    intro n z idx hn hfail _
    obtain ⟨m, rfl⟩ : ∃ m, n = m + 1 := ⟨n - 1, by omega⟩
    rw [Nat.add_zero] at hfail
    simp [runLoop, calibration.run, hfail]
  | succ k ih =>
    intro n z idx hn hfail hsome
    obtain ⟨m, rfl⟩ : ∃ m, n = m + 1 := ⟨n - 1, by omega⟩
    have h0 : (env.mkdtemp idx).isSome := by
      have h00 := hsome 0 (by omega)
      rwa [Nat.add_zero] at h00
    obtain ⟨td, htd⟩ := Option.isSome_iff_exists.mp h0
    rw [runLoop_cons cal env egt out v m z idx td htd]
    have hfail2 : env.mkdtemp (idx + 1 + k) = none := by
      have hi : idx + 1 + k = idx + (k + 1) := by omega
      rw [hi]; exact hfail
    have hsome2 : ∀ i, i < k → (env.mkdtemp (idx + 1 + i)).isSome := by
      intro i hi
      have he : idx + 1 + i = idx + (i + 1) := by omega
      rw [he]
      exact hsome (i + 1) (by omega)
    obtain ⟨hl, he⟩ := ih m (z + 1) (idx + 1) (by omega) hfail2 hsome2
    exact ⟨by simp [List.length_cons, hl], he⟩

/-- Witness for C10: `mkdtemp` fails on the second run of three; only the
first run completes and the error propagates. -/
theorem mkdtemp_failure_aborts_loop_witness :
    (runLoop cexCal envMkdtempFailsAt1 (lit "/in.egt") (lit "/out") true 3 5 0).1.length = 1
    ∧ (runLoop cexCal envMkdtempFailsAt1 (lit "/in.egt") (lit "/out") true 3 5 0).2
        = some (.osError (lit "mkdtemp failed")) := by
  refine mkdtemp_failure_aborts_loop cexCal envMkdtempFailsAt1 (lit "/in.egt") (lit "/out") true
    1 3 5 0 (by omega) (by decide) ?_
  intro i hi
  have h0 : i = 0 := by omega
  subst h0
  rfl
